import Mathlib

/-!
Shallow embedding of the seqan3 alphabet conversion-table subsystem
(`include/seqan3/alphabet/detail/convert.hpp`) and of the sequential
execution wrapper
(`include/seqan3/alignment/pairwise/execution/execution_handler_sequential.hpp`).

The conversion tables are C++ `constexpr` initialisers: a default-initialised
`std::array<out_t, alphabet_size_v<in_t>>` filled by a `for` loop of `set`
operations.  We embed the array as a `List`, the loop as a `foldl` of `List.set`
over `List.range`, machine ranks as `Nat` with an explicit `% 2 ^ w` where the
source converts to the input alphabet's rank type, and phred scores as `Int`.
-/

namespace Seqan3

/-- Modelled from the spec: the Alphabet capability contract
(`seqan3::alphabet_concept`, whose definition is outside the given sources).
A finite alphabet over carrier `α` with character type `χ`: a `size` constant
(the spec's `size(I)`, the source's `alphabet_size_v`), the bit width of the
alphabet's rank type, the default-constructed value, and the four operations
`to_char` / `assign_char` / `to_rank` / `assign_rank`.  The contract imposes no
equational laws beyond totality; rank-coherence facts appear as explicit
hypotheses of the theorems that need them. -/
structure Alphabet (χ : Type) (α : Type) where
  size : Nat
  rank_width : Nat
  default : α
  to_char : α → χ
  assign_char : χ → α
  to_rank : α → Nat
  assign_rank : Nat → α

/-- Modelled from the spec: the Quality capability contract
(`seqan3::quality_concept`, outside the given sources).  Refines `Alphabet`
with `value_size` (count of phred levels, possibly different from `size`),
`to_phred` and `assign_phred`. -/
structure QualityAlphabet (χ : Type) (α : Type) extends Alphabet χ α where
  value_size : Nat
  to_phred : α → Int
  assign_phred : Int → α

/-- The builder loop shared by both tables: starting from `init`
(the default-initialised array), perform `ret[i] = f i` for each index `i`
in `idxs` in order.  `List.set` out of range is a no-op, so the in-bounds
question is tracked separately (see `phred_writes_in_bounds`). -/
def setLoop {β : Type} (f : Nat → β) (idxs : List Nat) (init : List β) : List β :=
  idxs.foldl (fun ret i => ret.set i (f i)) init

/-- Embeds `seqan3::detail::convert_through_char_representation<out_t, in_t>`:
a `std::array<out_t, alphabet_size_v<in_t>> ret{}` filled by
`assign_char(ret[i], to_char(assign_rank(in_t\x7b\x7d, i)))` for
`i = 0 .. alphabet_size_v<in_t> - 1`. -/
def convert_through_char_representation {χ α β : Type}
    (O : Alphabet χ β) (I : Alphabet χ α) : List β :=
  setLoop (fun i => O.assign_char (I.to_char (I.assign_rank i)))
    (List.range I.size) (List.replicate I.size O.default)

/-- Embeds the loop bound of the phred-path builder:
`std::min<typename in_t::rank_type>(in_t::value_size, out_t::value_size)`.
Both value sizes are converted to `in_t`'s rank type — reduction modulo
`2 ^ rank_width I` — before the minimum is taken. -/
def phred_table_size {χ δ α β : Type}
    (O : QualityAlphabet χ β) (I : QualityAlphabet δ α) : Nat :=
  min (I.value_size % 2 ^ I.rank_width) (O.value_size % 2 ^ I.rank_width)

/-- Embeds the score expression of the phred-path builder:
`std::max<typename in_t::phred_type>(0, to_phred(assign_rank(in_t\x7b\x7d, i)))`. -/
def phred_input_score {δ α : Type} (I : QualityAlphabet δ α) (i : Nat) : Int :=
  max 0 (I.to_phred (I.assign_rank i))

/-- Embeds `seqan3::detail::convert_through_phred_representation<out_t, in_t>`:
a `std::array<out_t, alphabet_size_v<in_t>> ret{}` filled by
`assign_phred(ret[i], max(0, to_phred(assign_rank(in_t\x7b\x7d, i))))` for
`i = 0 .. table_size - 1`, where `table_size` is `phred_table_size`. -/
def convert_through_phred_representation {χ δ α β : Type}
    (O : QualityAlphabet χ β) (I : QualityAlphabet δ α) : List β :=
  setLoop (fun i => O.assign_phred (phred_input_score I i))
    (List.range (phred_table_size O I)) (List.replicate I.size O.toAlphabet.default)

/-- The index set the phred-path builder writes to (and feeds to
`assign_rank`): `[0, phred_table_size O I)`.  In the C++ source each such
access must satisfy `i < alphabet_size_v<in_t>` to be in bounds; this
predicate states that every access is. -/
def phred_writes_in_bounds {χ δ α β : Type}
    (O : QualityAlphabet χ β) (I : QualityAlphabet δ α) : Prop :=
  ∀ i ∈ List.range (phred_table_size O I), i < I.size

/-- Outcome of one call of the wrapped computation in
`execution_handler_sequential::execute`: the updated contents of the result
slot passed by reference, the value returned to the caller, and the trace of
observable effects the call performs. -/
structure FuncOutcome (ρ τ : Type) where
  slot : ρ
  ret : ρ
  events : List τ

/-- Embeds `seqan3::detail::execution_handler_sequential::execute`, whose body
is `delegate(func(res));`.  The computation and the delegate are modelled as
trace-producing functions; `execute` returns the updated result slot together
with the full effect trace observed before it returns. -/
def execution_handler_sequential_execute {ρ τ : Type}
    (func : ρ → FuncOutcome ρ τ) (res : ρ) (delegate : ρ → List τ) : ρ × List τ :=
  ((func res).slot, (func res).events ++ delegate (func res).ret)

/-! ## Concrete alphabet instances used by witnesses and counterexamples. -/

/-- A DNA-like 4-letter alphabet (chars are ASCII codes of A, C, G, T). -/
def dna4 : Alphabet Nat Nat :=
  { size := 4, rank_width := 8, default := 0
    to_char := fun v => [65, 67, 71, 84].getD v 65
    assign_char := fun c =>
      if c = 65 then 0 else if c = 67 then 1 else if c = 71 then 2 else
      if c = 84 then 3 else 0
    to_rank := fun v => v % 4
    assign_rank := fun r => r % 4 }

/-- The same four characters as `dna4` but with the rank order reversed. -/
def dna4swap : Alphabet Nat Nat :=
  { size := 4, rank_width := 8, default := 0
    to_char := fun v => [84, 71, 67, 65].getD v 84
    assign_char := fun c =>
      if c = 84 then 0 else if c = 71 then 1 else if c = 67 then 2 else
      if c = 65 then 3 else 0
    to_rank := fun v => v % 4
    assign_rank := fun r => r % 4 }

/-- A well-behaved 5-level quality alphabet: rank `r` has phred score `r`. -/
def qual5 : QualityAlphabet Nat Nat :=
  { size := 5, rank_width := 8, default := 0
    to_char := fun v => v + 33
    assign_char := fun c => (c - 33) % 5
    to_rank := fun v => v % 5
    assign_rank := fun r => r % 5
    value_size := 5
    to_phred := fun v => (v : Int)
    assign_phred := fun p => p.toNat % 5 }

/-- A crafted quality alphabet whose phred function yields negative scores for
ranks 0 and 1 (`to_phred v = v - 2`). -/
def negQual : QualityAlphabet Nat Nat :=
  { size := 4, rank_width := 8, default := 0
    to_char := fun v => v + 33
    assign_char := fun c => (c - 33) % 4
    to_rank := fun v => v % 4
    assign_rank := fun r => r % 4
    value_size := 4
    to_phred := fun v => (v : Int) - 2
    assign_phred := fun p => (p.toNat + 2) % 4 }

/-- A 256-value quality alphabet with an 8-bit rank type: its `value_size`
(256) reduces to 0 when converted to the rank type, as `2 ^ 8 = 256`. -/
def wrapQual : QualityAlphabet Nat Nat :=
  { size := 256, rank_width := 8, default := 0
    to_char := fun v => v
    assign_char := fun c => c % 256
    to_rank := fun v => v % 256
    assign_rank := fun r => r % 256
    value_size := 256
    to_phred := fun v => (v : Int)
    assign_phred := fun p => p.toNat % 256 }

/-- A quality alphabet whose `value_size` (5) exceeds its `size` (3). -/
def padQual : QualityAlphabet Nat Nat :=
  { size := 3, rank_width := 8, default := 0
    to_char := fun v => v + 33
    assign_char := fun c => (c - 33) % 3
    to_rank := fun v => v % 3
    assign_rank := fun r => r % 3
    value_size := 5
    to_phred := fun v => (v : Int)
    assign_phred := fun p => p.toNat % 3 }

/-- A 2-level quality alphabet, used as a reduced-resolution output. -/
def truncQual : QualityAlphabet Nat Nat :=
  { size := 2, rank_width := 8, default := 0
    to_char := fun v => v + 33
    assign_char := fun c => (c - 33) % 2
    to_rank := fun v => v % 2
    assign_rank := fun r => r % 2
    value_size := 2
    to_phred := fun v => (v : Int)
    assign_phred := fun p => p.toNat % 2 }

/-- A two-value alphabet whose two values render to the same character, so
`assign_char` cannot invert `to_char` (the capability contract permits this). -/
def badQual : QualityAlphabet Nat Nat :=
  { size := 2, rank_width := 8, default := 0
    to_char := fun _ => 97
    assign_char := fun _ => 0
    to_rank := fun v => v % 2
    assign_rank := fun r => r % 2
    value_size := 2
    to_phred := fun v => (v : Int)
    assign_phred := fun p => p.toNat % 2 }

/-! ## Properties of the builder loop. -/

theorem setLoop_length {β : Type} (f : Nat → β) (idxs : List Nat) (init : List β) :
    (setLoop f idxs init).length = init.length := by
  induction idxs generalizing init with
  | nil => rfl
  | cons i is ih => simpa [setLoop, List.foldl_cons] using ih (init.set i (f i))

theorem setLoop_range_getD {β : Type} (f : Nat → β) (d : β) (m : Nat) :
    ∀ (init : List β) (r : Nat), r < init.length →
      (setLoop f (List.range m) init).getD r d =
        if r < m then f r else init.getD r d := by
  induction m with
  | zero => intro init r _; simp [setLoop, List.range_zero]
  | succ n ih =>
    intro init r hr
    have hsplit : setLoop f (List.range (n + 1)) init =
        (setLoop f (List.range n) init).set n (f n) := by
      simp [setLoop, List.range_succ, List.foldl_append]
    have hlen : (setLoop f (List.range n) init).length = init.length :=
      setLoop_length f (List.range n) init
    rw [hsplit, List.getD_eq_getElem?_getD, List.getElem?_set]
    by_cases hnr : n = r
    · subst hnr
      simp [hlen, hr, Nat.lt_succ_self]
    · have := ih init r hr
      rw [List.getD_eq_getElem?_getD] at this
      rw [if_neg hnr, this]
      by_cases hrn : r < n
      · simp [hrn, Nat.lt_succ_of_lt hrn]
      · have : ¬ r < n + 1 := by omega
        simp [hrn, this]

theorem char_table_length {χ α β : Type} (O : Alphabet χ β) (I : Alphabet χ α) :
    (convert_through_char_representation O I).length = I.size := by
  simpa [convert_through_char_representation] using
    setLoop_length (fun i => O.assign_char (I.to_char (I.assign_rank i)))
      (List.range I.size) (List.replicate I.size O.default)

theorem char_table_getD {χ α β : Type} (O : Alphabet χ β) (I : Alphabet χ α)
    (r : Nat) (d : β) (hr : r < I.size) :
    (convert_through_char_representation O I).getD r d =
      O.assign_char (I.to_char (I.assign_rank r)) := by
  have := setLoop_range_getD (fun i => O.assign_char (I.to_char (I.assign_rank i)))
    d I.size (List.replicate I.size O.default) r (by simpa using hr)
  simpa [convert_through_char_representation, hr] using this

theorem phred_table_length {χ δ α β : Type}
    (O : QualityAlphabet χ β) (I : QualityAlphabet δ α) :
    (convert_through_phred_representation O I).length = I.size := by
  simpa [convert_through_phred_representation] using
    setLoop_length (fun i => O.assign_phred (phred_input_score I i))
      (List.range (phred_table_size O I)) (List.replicate I.size O.toAlphabet.default)

theorem phred_table_getD {χ δ α β : Type}
    (O : QualityAlphabet χ β) (I : QualityAlphabet δ α) (r : Nat) (d : β)
    (hr : r < I.size) :
    (convert_through_phred_representation O I).getD r d =
      if r < phred_table_size O I then O.assign_phred (phred_input_score I r)
      else O.toAlphabet.default := by
  have := setLoop_range_getD (fun i => O.assign_phred (phred_input_score I i))
    d (phred_table_size O I) (List.replicate I.size O.toAlphabet.default) r
    (by simpa using hr)
  rw [convert_through_phred_representation, this]
  by_cases h : r < phred_table_size O I
  · simp [h]
  · simp [h, List.getD_eq_getElem?_getD, List.getElem?_replicate, hr]

/-! ## Claims. -/

/-- Claim C1: for every output alphabet `O` and input alphabet `I` satisfying
the Alphabet capability, the char-path conversion table has length `size I`,
and for every input rank `r < size I` the entry at index `r` equals
`O.assign_char (I.to_char (I.assign_rank r))`. -/
theorem spec_C1 : ∀ {χ α β : Type} (O : Alphabet χ β) (I : Alphabet χ α),
    (convert_through_char_representation O I).length = I.size ∧
    ∀ r : Nat, r < I.size →
      (convert_through_char_representation O I).getD r O.default =
        O.assign_char (I.to_char (I.assign_rank r)) := by
  intro χ α β O I
  exact ⟨char_table_length O I, fun r hr => char_table_getD O I r O.default hr⟩

/-- Witness for C1 at the concrete pair `(dna4swap, dna4)` and rank 2. -/
theorem spec_C1_witness :
    2 < dna4.size ∧
    (convert_through_char_representation dna4swap dna4).getD 2 dna4swap.default =
      dna4swap.assign_char (dna4.to_char (dna4.assign_rank 2)) :=
  ⟨by decide, (spec_C1 dna4swap dna4).2 2 (by decide)⟩

/-- Claim C3: the char-path table is total — it has length `size I`, every
index `r < size I` holds exactly one value of the output type, and the lookup
at `to_rank v` succeeds for every legal value `v` of `I`. -/
theorem spec_C3 : ∀ {χ α β : Type} (O : Alphabet χ β) (I : Alphabet χ α),
    (convert_through_char_representation O I).length = I.size ∧
    (∀ r : Nat, r < I.size →
      ∃ o : β, (convert_through_char_representation O I)[r]? = some o) ∧
    (∀ v : α, I.to_rank v < I.size →
      ∃ o : β, (convert_through_char_representation O I)[I.to_rank v]? = some o) := by
  intro χ α β O I
  have hlen := char_table_length O I
  refine ⟨hlen, fun r hr => ?_, fun v hv => ?_⟩
  · have hr' : r < (convert_through_char_representation O I).length := by omega
    exact ⟨_, List.getElem?_eq_getElem hr'⟩
  · have hv' : I.to_rank v < (convert_through_char_representation O I).length := by omega
    exact ⟨_, List.getElem?_eq_getElem hv'⟩

/-- Witness for C3 at the concrete pair `(dna4swap, dna4)` and value 3. -/
theorem spec_C3_witness :
    dna4.to_rank 3 < dna4.size ∧
    ∃ o : Nat,
      (convert_through_char_representation dna4swap dna4)[dna4.to_rank 3]? = some o :=
  ⟨by decide, (spec_C3 dna4swap dna4).2.2 3 (by decide)⟩

/-- Claim C4: for every quality alphabet pair and every rank `r` below the
phred table bound, the score handed to the output's `assign_phred` when
building the entry at `r` is `max 0 (to_phred (assign_rank r))`, hence never
negative — even when the input's `to_phred` yields a negative value. -/
theorem spec_C4 : ∀ {χ δ α β : Type}
    (O : QualityAlphabet χ β) (I : QualityAlphabet δ α) (r : Nat),
    r < phred_table_size O I → r < I.size →
    0 ≤ phred_input_score I r ∧
    (convert_through_phred_representation O I).getD r O.default =
      O.assign_phred (phred_input_score I r) := by
  intro χ δ α β O I r hb hs
  refine ⟨le_max_left 0 _, ?_⟩
  rw [phred_table_getD O I r O.default hs, if_pos hb]

/-- Witness for C4 at the crafted pair `(qual5, negQual)` and rank 0, where
`negQual.to_phred` yields the negative score -2. -/
theorem spec_C4_witness :
    (0 < phred_table_size qual5 negQual ∧ 0 < negQual.size ∧
      negQual.to_phred (negQual.assign_rank 0) < 0) ∧
    0 ≤ phred_input_score negQual 0 ∧
    (convert_through_phred_representation qual5 negQual).getD 0 qual5.default =
      qual5.assign_phred (phred_input_score negQual 0) :=
  ⟨⟨by decide, by decide, by decide⟩, spec_C4 qual5 negQual 0 (by decide) (by decide)⟩

/-- Claim C8: `execution_handler_sequential::execute` invokes the computation
on the result slot, passes the computation's returned value to the delegate,
and returns only after the delegate has completed: the updated slot is the
computation's, the observed effect trace is the computation's events followed
by the delegate's events on the computation's result, and the delegate's whole
trace is a suffix of the trace observed before `execute` returns. -/
theorem spec_C8 : ∀ {ρ τ : Type} (func : ρ → FuncOutcome ρ τ) (res : ρ)
    (delegate : ρ → List τ),
    (execution_handler_sequential_execute func res delegate).1 = (func res).slot ∧
    (execution_handler_sequential_execute func res delegate).2 =
      (func res).events ++ delegate (func res).ret ∧
    (delegate (func res).ret) <:+
      (execution_handler_sequential_execute func res delegate).2 := by
  intro ρ τ func res delegate
  exact ⟨rfl, rfl, ⟨(func res).events, rfl⟩⟩

/-- Counterexample to Claim C2 as stated: for the pair `(wrapQual, wrapQual)`
(256 phred levels, 8-bit rank type) the claimed bound
`m = min (value_size I) (value_size O) = 256` puts rank 1 inside the assigned
range, but the builder's bound is `min (256 % 256) (256 % 256) = 0`, so the
entry at rank 1 is the default value, not `assign_phred (max 0 (to_phred _))`. -/
theorem spec_C2_cex :
    1 < min wrapQual.value_size wrapQual.value_size ∧
    (convert_through_phred_representation wrapQual wrapQual).getD 1 wrapQual.default ≠
      wrapQual.assign_phred (phred_input_score wrapQual 1) := by
  constructor
  · decide
  · have h1 : (1 : Nat) < wrapQual.size := by decide
    rw [phred_table_getD wrapQual wrapQual 1 wrapQual.default h1]
    have hz : phred_table_size wrapQual wrapQual = 0 := by decide
    rw [hz]
    decide

/-- Claim C2 (amended): with the bound `m` computed as the source computes
it — both value sizes reduced modulo `2 ^ rank_width I` before the minimum —
the phred-path table has length `size I`; entries at ranks below `m` equal
`assign_phred (max 0 (to_phred (assign_rank r)))`, and entries at ranks in
`[m, size I)` are the output type's default value. -/
theorem spec_C2 : ∀ {χ δ α β : Type}
    (O : QualityAlphabet χ β) (I : QualityAlphabet δ α),
    (convert_through_phred_representation O I).length = I.size ∧
    (∀ r : Nat, r < phred_table_size O I → r < I.size →
      (convert_through_phred_representation O I).getD r O.default =
        O.assign_phred (phred_input_score I r)) ∧
    (∀ r : Nat, phred_table_size O I ≤ r → r < I.size →
      (convert_through_phred_representation O I).getD r O.default = O.default) := by
  intro χ δ α β O I
  refine ⟨phred_table_length O I, fun r hb hs => ?_, fun r hb hs => ?_⟩
  · rw [phred_table_getD O I r O.default hs, if_pos hb]
  · rw [phred_table_getD O I r O.default hs, if_neg (by omega)]

/-- Witness for C2 at the pair `(truncQual, qual5)`: rank 1 lies below the
bound `min 5 2 = 2` and gets an assigned entry; rank 3 lies at or above it and
keeps the default value. -/
theorem spec_C2_witness :
    ((1 < phred_table_size truncQual qual5 ∧ 1 < qual5.size) ∧
      (convert_through_phred_representation truncQual qual5).getD 1 truncQual.default =
        truncQual.assign_phred (phred_input_score qual5 1)) ∧
    ((phred_table_size truncQual qual5 ≤ 3 ∧ 3 < qual5.size) ∧
      (convert_through_phred_representation truncQual qual5).getD 3 truncQual.default =
        truncQual.default) :=
  ⟨⟨⟨by decide, by decide⟩, (spec_C2 truncQual qual5).2.1 1 (by decide) (by decide)⟩,
   ⟨⟨by decide, by decide⟩, (spec_C2 truncQual qual5).2.2 3 (by decide) (by decide)⟩⟩

/-- Counterexample to Claim C5 as stated: the capability contract does not
force `assign_char` to invert `to_char`.  For `badQual` (both values render to
the same character, whose `assign_char` is constantly 0), converting value 1
from `badQual` to `badQual` itself over the char path yields 0, not 1. -/
theorem spec_C5_cex :
    (convert_through_char_representation badQual.toAlphabet badQual.toAlphabet).getD
      (badQual.to_rank 1) badQual.default ≠ 1 := by
  decide

/-- Claim C5 (amended): conversion from an alphabet `A` to `A` itself is the
identity on every value `v` on which `A`'s operations are coherent: over the
char path when `assign_rank` inverts `to_rank` at `v` and `assign_char` inverts
`to_char` at `v`; over the phred path when additionally `to_rank v` is below
the builder's bound, `to_phred v` is non-negative, and `assign_phred` inverts
`to_phred` at `v`. -/
theorem spec_C5 :
    (∀ {χ α : Type} (A : Alphabet χ α) (v : α),
      A.to_rank v < A.size → A.assign_rank (A.to_rank v) = v →
      A.assign_char (A.to_char v) = v →
      (convert_through_char_representation A A).getD (A.to_rank v) A.default = v) ∧
    (∀ {δ α : Type} (A : QualityAlphabet δ α) (v : α),
      A.to_rank v < A.size → A.assign_rank (A.to_rank v) = v →
      A.to_rank v < phred_table_size A A →
      0 ≤ A.to_phred v → A.assign_phred (A.to_phred v) = v →
      (convert_through_phred_representation A A).getD (A.to_rank v) A.default = v) := by
  constructor
  · intro χ α A v hlt hrk hch
    rw [char_table_getD A A (A.to_rank v) A.default hlt, hrk, hch]
  · intro δ α A v hlt hrk hb hp hph
    rw [phred_table_getD A A (A.to_rank v) A.default hlt, if_pos hb,
      phred_input_score, hrk, max_eq_right hp, hph]

/-- Witness for C5: char-path identity at `dna4` on value 2, and phred-path
identity at `qual5` on value 3. -/
theorem spec_C5_witness :
    ((dna4.to_rank 2 < dna4.size ∧ dna4.assign_rank (dna4.to_rank 2) = 2 ∧
        dna4.assign_char (dna4.to_char 2) = 2) ∧
      (convert_through_char_representation dna4 dna4).getD (dna4.to_rank 2)
        dna4.default = 2) ∧
    ((qual5.to_rank 3 < qual5.size ∧ qual5.to_rank 3 < phred_table_size qual5 qual5 ∧
        0 ≤ qual5.to_phred 3) ∧
      (convert_through_phred_representation qual5 qual5).getD (qual5.to_rank 3)
        qual5.default = 3) :=
  ⟨⟨⟨by decide, by decide, by decide⟩,
      spec_C5.1 dna4 2 (by decide) (by decide) (by decide)⟩,
   ⟨⟨by decide, by decide, by decide⟩,
      spec_C5.2 qual5 3 (by decide) (by decide) (by decide) (by decide) (by decide)⟩⟩

/-- Claim C6: the phred path preserves non-strict score order.  For ranks
`r1 < r2` below the builder's bound whose input phred scores are ordered, and
with the output alphabet's phred domain covering both (clamped) scores — its
`to_phred` inverts its `assign_phred` there — the output phred scores of the
table entries at `r1` and `r2` are ordered the same way. -/
theorem spec_C6 : ∀ {χ δ α β : Type}
    (O : QualityAlphabet χ β) (I : QualityAlphabet δ α) (r1 r2 : Nat),
    r1 < r2 → r2 < phred_table_size O I → r2 < I.size →
    I.to_phred (I.assign_rank r1) ≤ I.to_phred (I.assign_rank r2) →
    O.to_phred (O.assign_phred (phred_input_score I r1)) = phred_input_score I r1 →
    O.to_phred (O.assign_phred (phred_input_score I r2)) = phred_input_score I r2 →
    O.to_phred ((convert_through_phred_representation O I).getD r1 O.default) ≤
      O.to_phred ((convert_through_phred_representation O I).getD r2 O.default) := by
  intro χ δ α β O I r1 r2 h12 hb2 hs2 hph hc1 hc2
  have hb1 : r1 < phred_table_size O I := lt_trans h12 hb2
  have hs1 : r1 < I.size := lt_trans h12 hs2
  rw [phred_table_getD O I r1 O.default hs1, phred_table_getD O I r2 O.default hs2,
    if_pos hb1, if_pos hb2, hc1, hc2, phred_input_score, phred_input_score]
  exact max_le_max le_rfl hph

/-- Witness for C6 at the pair `(qual5, qual5)` and ranks 1 < 2. -/
theorem spec_C6_witness :
    (1 < 2 ∧ 2 < phred_table_size qual5 qual5 ∧ 2 < qual5.size ∧
      qual5.to_phred (qual5.assign_rank 1) ≤ qual5.to_phred (qual5.assign_rank 2)) ∧
    qual5.to_phred ((convert_through_phred_representation qual5 qual5).getD 1
        qual5.default) ≤
      qual5.to_phred ((convert_through_phred_representation qual5 qual5).getD 2
        qual5.default) :=
  ⟨⟨by decide, by decide, by decide, by decide⟩,
   spec_C6 qual5 qual5 1 2 (by decide) (by decide) (by decide) (by decide)
     (by decide) (by decide)⟩

/-- Claim C7: char-path round trip.  For alphabets `I` and `O` of equal size
whose character sets match coherently at rank `r` — `O` re-renders the parsed
character unchanged, both alphabets' rank operations invert each other at the
values involved, and `I`'s `assign_char` inverts its `to_char` there —
converting `I`'s rank-`r` value to `O` through the `(O, I)` table and back
through the `(I, O)` table restores the original value. -/
theorem spec_C7 : ∀ {χ α β : Type} (I : Alphabet χ α) (O : Alphabet χ β) (r : Nat),
    r < I.size → I.size = O.size →
    I.to_rank (I.assign_rank r) = r →
    O.to_rank (O.assign_char (I.to_char (I.assign_rank r))) < O.size →
    O.assign_rank (O.to_rank (O.assign_char (I.to_char (I.assign_rank r)))) =
      O.assign_char (I.to_char (I.assign_rank r)) →
    O.to_char (O.assign_char (I.to_char (I.assign_rank r))) =
      I.to_char (I.assign_rank r) →
    I.assign_char (I.to_char (I.assign_rank r)) = I.assign_rank r →
    (convert_through_char_representation I O).getD
      (O.to_rank ((convert_through_char_representation O I).getD
        (I.to_rank (I.assign_rank r)) O.default)) I.default = I.assign_rank r := by
  intro χ α β I O r hr _ hIr hOlt hOr hOc hIc
  have hinner : (convert_through_char_representation O I).getD
      (I.to_rank (I.assign_rank r)) O.default =
      O.assign_char (I.to_char (I.assign_rank r)) := by
    rw [hIr]; exact char_table_getD O I r O.default hr
  rw [hinner, char_table_getD I O _ I.default hOlt, hOr, hOc, hIc]

/-- Witness for C7 at the pair `(dna4, dna4swap)` — same characters, reversed
rank order — and rank 1. -/
theorem spec_C7_witness :
    (1 < dna4.size ∧ dna4.size = dna4swap.size ∧
      dna4swap.to_rank (dna4swap.assign_char (dna4.to_char (dna4.assign_rank 1))) <
        dna4swap.size) ∧
    (convert_through_char_representation dna4 dna4swap).getD
      (dna4swap.to_rank ((convert_through_char_representation dna4swap dna4).getD
        (dna4.to_rank (dna4.assign_rank 1)) dna4swap.default)) dna4.default =
      dna4.assign_rank 1 :=
  ⟨⟨by decide, by decide, by decide⟩,
   spec_C7 dna4 dna4swap 1 (by decide) (by decide) (by decide) (by decide)
     (by decide) (by decide) (by decide)⟩

/-- Counterexample to Claim C9 as stated: for the pair `(wrapQual, padQual)`
— input of size 3 with 5 phred levels, output whose 256 levels reduce to 0 in
the input's 8-bit rank type — every write of the builder is in bounds (its
bound is `min 5 0 = 0`), yet `min (value_size I) (value_size O) = 5 > 3`, so
the claimed equivalence fails. -/
theorem spec_C9_cex :
    ¬ (phred_writes_in_bounds wrapQual padQual ↔
        min padQual.value_size wrapQual.value_size ≤ padQual.size) := by
  intro h
  have hz : phred_table_size wrapQual padQual = 0 := by decide
  have h1 : phred_writes_in_bounds wrapQual padQual := by
    intro i hi
    rw [hz, List.mem_range] at hi
    omega
  exact absurd (h.mp h1) (by decide)

/-- Claim C9 (amended): when both value sizes are representable in the input's
rank type, every table write and `assign_rank` call of the phred-path builder
lies in the legal domain `[0, size I)` if and only if
`min (value_size I) (value_size O) ≤ size I` — a precondition the builder
itself never checks. -/
theorem spec_C9 : ∀ {χ δ α β : Type}
    (O : QualityAlphabet χ β) (I : QualityAlphabet δ α),
    I.value_size < 2 ^ I.rank_width → O.value_size < 2 ^ I.rank_width →
    (phred_writes_in_bounds O I ↔ min I.value_size O.value_size ≤ I.size) := by
  intro χ δ α β O I hI hO
  have hb : phred_table_size O I = min I.value_size O.value_size := by
    rw [phred_table_size, Nat.mod_eq_of_lt hI, Nat.mod_eq_of_lt hO]
  rw [phred_writes_in_bounds, hb]
  constructor
  · intro h
    by_contra hc
    have := h I.size (by rw [List.mem_range]; omega)
    omega
  · intro h i hi
    rw [List.mem_range] at hi
    omega

/-- Witness for C9 at the pair `(qual5, padQual)`: both value sizes fit the
8-bit rank type, and the equivalence holds there (both sides false:
`min 5 5 = 5 > 3`). -/
theorem spec_C9_witness :
    (padQual.value_size < 2 ^ padQual.rank_width ∧
      qual5.value_size < 2 ^ padQual.rank_width) ∧
    (phred_writes_in_bounds qual5 padQual ↔
      min padQual.value_size qual5.value_size ≤ padQual.size) :=
  ⟨⟨by decide, by decide⟩, spec_C9 qual5 padQual (by decide) (by decide)⟩

/-- Claim C10: the phred-path loop bound converts both value sizes to the
input's rank type before taking the minimum.  It equals the mathematical
minimum whenever both value sizes are representable in that rank type; in
general it is the minimum of the values reduced modulo `2 ^ rank_width I`,
which can differ from the mathematical minimum (e.g. for `wrapQual`, whose
256 levels reduce to 0 in its 8-bit rank type). -/
theorem spec_C10 :
    (∀ {χ δ α β : Type} (O : QualityAlphabet χ β) (I : QualityAlphabet δ α),
      I.value_size < 2 ^ I.rank_width → O.value_size < 2 ^ I.rank_width →
      phred_table_size O I = min I.value_size O.value_size) ∧
    (∀ {χ δ α β : Type} (O : QualityAlphabet χ β) (I : QualityAlphabet δ α),
      phred_table_size O I =
        min (I.value_size % 2 ^ I.rank_width) (O.value_size % 2 ^ I.rank_width)) ∧
    phred_table_size wrapQual wrapQual ≠
      min wrapQual.value_size wrapQual.value_size := by
  refine ⟨?_, fun O I => rfl, by decide⟩
  intro χ δ α β O I hI hO
  rw [phred_table_size, Nat.mod_eq_of_lt hI, Nat.mod_eq_of_lt hO]

/-- Witness for C10 at the pair `(truncQual, qual5)`, whose value sizes 5 and
2 are representable in the 8-bit rank type. -/
theorem spec_C10_witness :
    (qual5.value_size < 2 ^ qual5.rank_width ∧
      truncQual.value_size < 2 ^ qual5.rank_width) ∧
    phred_table_size truncQual qual5 = min qual5.value_size truncQual.value_size :=
  ⟨⟨by decide, by decide⟩, spec_C10.1 truncQual qual5 (by decide) (by decide)⟩

end Seqan3
